import Mathlib

/-!
Verification of the agent-kernel repository extension scripts.

Shallow embedding of the executable TypeScript surface:
* the gh-agent command gate (`isCommandAllowed`, `matchesPattern`, `ALLOWED_COMMANDS`),
* the identity resolver (`parseRepoOwner`, `getAccountForRepo`, `ACCOUNTS`),
* the collaboration concept loader (`parseConceptMarkers`, `loadConceptsRecursively`),
* the workspace tool launch path,
* the github tool confirmation reentrancy guard.

JavaScript strings are modelled as Lean `String` / `List Char`.  Regular
expressions are modelled by equivalent hand-rolled scanners; each scanner is
written to reproduce the leftmost-match, greedy, no-useful-backtracking
behaviour of the concrete regex it replaces (all the regexes used by the code
have character-class bodies for which backtracking can never succeed, so a
single greedy pass is exact).  General recursion is modelled with an explicit
fuel parameter that bounds recursion depth; claims are stated for all
sufficiently large fuel values.
-/

/- ## String and character utilities -/

/-- JavaScript whitespace (the common ASCII part of the regex class for
whitespace); the code only ever splits command strings that use spaces and
tabs. -/
def isJsWs (c : Char) : Bool :=
  c = ' ' || c = '\t' || c = '\n' || c = '\r' || c = '\x0b' || c = '\x0c'

/-- JavaScript `String.prototype.trim` on the character list. -/
def jsTrimList (l : List Char) : List Char :=
  ((l.dropWhile isJsWs).reverse.dropWhile isJsWs).reverse

/-- Split into maximal runs of non-whitespace characters (accumulator holds
the current run reversed). -/
def wsFieldsAux : List Char → List Char → List (List Char)
  | [], acc => if acc.isEmpty then [] else [acc.reverse]
  | c :: rest, acc =>
    if isJsWs c then
      if acc.isEmpty then wsFieldsAux rest [] else acc.reverse :: wsFieldsAux rest []
    else wsFieldsAux rest (c :: acc)

/-- JavaScript `trimmed.split` with a one-or-more-whitespace regex, applied to
an already trimmed string: the empty string yields the singleton list holding
the empty string, any other trimmed string yields its whitespace-separated
fields. -/
def jsSplitWs (s : String) : List String :=
  let t := jsTrimList s.data
  if t.isEmpty then [""] else (wsFieldsAux t []).map String.mk

/-- JavaScript `split` on the character `'/'` (keeps empty segments). -/
def splitSlash : List Char → List (List Char)
  | [] => [[]]
  | c :: rest =>
    let r := splitSlash rest
    if c = '/' then [] :: r
    else
      match r with
      | h :: t => (c :: h) :: t
      | [] => [[c]]

/-- Substring containment on character lists (JavaScript `includes`). -/
def containsSub (pat : List Char) : List Char → Bool
  | [] => pat.isEmpty
  | c :: rest => pat.isPrefixOf (c :: rest) || containsSub pat rest

/-- Substring containment on strings. -/
def strIncludes (pat s : String) : Bool :=
  containsSub pat.data s.data

/-- JavaScript `Array.prototype.indexOf` returning an index option instead of
minus one. -/
def jsIndexOf (x : String) : List String → Option Nat
  | [] => none
  | y :: rest =>
    if y = x then some 0
    else (jsIndexOf x rest).map (· + 1)

/-- JavaScript `toUpperCase` (ASCII). -/
def jsToUpper (s : String) : String :=
  String.mk (s.data.map Char.toUpper)

/- ## gh-agent extension: command gate (src/unnamed/part_009) -/

/-- `ALLOWED_COMMANDS` from the gh-agent extension, verbatim. -/
def ALLOWED_COMMANDS : List String := [
  "issue create",
  "issue comment",
  "issue view",
  "issue list",
  "issue edit",
  "pr create",
  "pr comment",
  "pr view",
  "pr list",
  "pr diff",
  "pr review",
  "pr edit",
  "api repos/*/pulls/*/comments/*/replies",
  "api repos/*/issues/comments/*",
  "api repos/*/pulls/comments/*"
]

/-- Result record of `isCommandAllowed`. -/
structure GateResult where
  allowed : Bool
  reason : Option String
  deriving Repr, DecidableEq

/-- `matchesPattern`: segment counts must agree and every pattern segment is
either the single-segment wildcard or equal to the endpoint segment. -/
def matchesPattern (endpoint pat : String) : Bool :=
  let endpointParts := splitSlash endpoint.data
  let patternParts := splitSlash pat.data
  if endpointParts.length ≠ patternParts.length then false
  else (patternParts.zip endpointParts).all fun pe =>
    pe.1 = ['*'] || pe.1 = pe.2

/-- An allow-list entry is an API rule when it starts with the api prefix. -/
def isApiRule (rule : String) : Bool :=
  "api ".data.isPrefixOf rule.data

/-- Drop the leading four characters of an API rule (JavaScript slice 4). -/
def apiPatternOf (rule : String) : String :=
  String.mk (rule.data.drop 4)

/-- The rejection message listing the non-API allowed commands. -/
def notInAllowListMsg (cmdSubcmd : String) : String :=
  "Command not in allow list: " ++ cmdSubcmd ++ ". Allowed: " ++
    String.intercalate ", " (ALLOWED_COMMANDS.filter fun c => !(isApiRule c))

/-- The HTTP method chosen for an API invocation: the argument after the
method flag when present (absent value maps to none), otherwise GET. -/
def apiMethodOf (parts : List String) : Option String :=
  match jsIndexOf "-X" parts with
  | some i => (parts.get? (i + 1)).map jsToUpper
  | none => some "GET"

/-- Method restriction applied once an API pattern has matched. -/
def apiMethodCheck (parts : List String) (endpoint pat : String) : GateResult :=
  let method := apiMethodOf parts
  if strIncludes "/replies" pat && method ≠ some "POST" then
    ⟨false, some ("API endpoint " ++ endpoint ++ " only allows POST method")⟩
  else if (strIncludes "/issues/comments/" pat || strIncludes "/pulls/comments/" pat) &&
      !(strIncludes "/replies" pat) && method ≠ some "PATCH" && method ≠ some "GET" then
    ⟨false, some ("API endpoint " ++ endpoint ++ " only allows GET or PATCH method")⟩
  else ⟨true, none⟩

/-- `isCommandAllowed` from the gh-agent extension: trim, split on
whitespace, require two tokens, accept exact non-API pairs, then try API
patterns in order with their method restrictions, otherwise reject naming the
non-API allow list. -/
def isCommandAllowed (command : String) : GateResult :=
  let parts := jsSplitWs command
  match parts with
  | [] => ⟨false, some "Command requires at least: gh_agent <command> <subcommand>"⟩
  | [_] => ⟨false, some "Command requires at least: gh_agent <command> <subcommand>"⟩
  | p0 :: p1 :: _ =>
    let cmdSubcmd := p0 ++ " " ++ p1
    if ALLOWED_COMMANDS.any (fun a => !(isApiRule a) && cmdSubcmd = a) then
      ⟨true, none⟩
    else if p0 = "api" then
      match ALLOWED_COMMANDS.find? (fun a => isApiRule a && matchesPattern p1 (apiPatternOf a)) with
      | some rule => apiMethodCheck parts p1 (apiPatternOf rule)
      | none => ⟨false, some (notInAllowListMsg cmdSubcmd)⟩
    else ⟨false, some (notInAllowListMsg cmdSubcmd)⟩

/- ## github extension: identity resolver (src/unnamed/part_007) -/

/-- The two GitHub accounts used for identity switching. -/
structure AccountsConfig where
  agent : String
  personal : String
  deriving Repr, DecidableEq

/-- `ACCOUNTS` constant, verbatim. -/
def ACCOUNTS : AccountsConfig :=
  { agent := "john-agent", personal := "dyreby" }

/-- `getAccountForRepo`: the designated owner maps to the agent account,
everything else (null included) to the personal account. -/
def getAccountForRepo (repoOwner : Option String) : String :=
  if repoOwner = some "dyreby" then ACCOUNTS.agent else ACCOUNTS.personal

/-- Literal part of the SSH remote URL regex. -/
def sshLit : List Char := "git@github.com:".data

/-- Literal part of the HTTPS remote URL regex. -/
def httpsLit : List Char := "https://github.com/".data

/-- Try to match a literal followed by a nonempty slash-free capture followed
by a slash, at the head of the list.  This is the anchored form of both
remote URL regexes; the capture class cannot backtrack usefully (a shorter
capture would put a non-slash where the slash is required), so the greedy
take is exact. -/
def ownerAt (lit l : List Char) : Option (List Char) :=
  if lit.isPrefixOf l then
    let after := l.drop lit.length
    let run := after.takeWhile (fun c => c != '/')
    if !run.isEmpty && (after.drop run.length).head? = some '/' then some run
    else none
  else none

/-- Unanchored regex search: try every start position left to right. -/
def searchOwner (lit : List Char) : List Char → Option (List Char)
  | [] => none
  | c :: rest =>
    match ownerAt lit (c :: rest) with
    | some o => some o
    | none => searchOwner lit rest

/-- `parseRepoOwner`: SSH pattern first, then HTTPS, else null. -/
def parseRepoOwner (remoteUrl : String) : Option String :=
  match searchOwner sshLit remoteUrl.data with
  | some o => some (String.mk o)
  | none =>
    match searchOwner httpsLit remoteUrl.data with
    | some o => some (String.mk o)
    | none => none

/- ## collaboration extension: concept marker loader (src/extensions/collaboration.ts) -/

/-- Character class of a concept identifier. -/
def isIdentChar (c : Char) : Bool :=
  c.isAlpha || c.isDigit || c = '_' || c = '-'

/-- Scanner for the concept marker regex with global flag: at each position
try to match a backtick, the literal cf and a colon, a nonempty greedy
identifier run, and a closing backtick; on success resume after the closing
backtick, on failure advance one position.  The identifier class cannot
backtrack usefully (a shorter run would put an identifier character where
the closing backtick is required), so the greedy run is exact.  The fuel
argument only bounds the number of scan steps; every step consumes at least
one character, so fuel equal to the length of the text is always enough. -/
def tryMarker : List Char → Option (String × List Char)
  | '`' :: 'c' :: 'f' :: ':' :: rest2 =>
    if !(rest2.takeWhile isIdentChar).isEmpty &&
        (rest2.drop (rest2.takeWhile isIdentChar).length).head? = some '`' then
      some (String.mk (rest2.takeWhile isIdentChar),
        (rest2.drop (rest2.takeWhile isIdentChar).length).tail)
    else none
  | _ => none

def scanMarkersAux : Nat → List Char → List String
  | 0, _ => []
  | _ + 1, [] => []
  | fuel + 1, c :: rest =>
    match tryMarker (c :: rest) with
    | some (n, cont) => n :: scanMarkersAux fuel cont
    | none => scanMarkersAux fuel rest

/-- All marker identifiers of a text, in match order. -/
def scanMarkers (text : String) : List String :=
  scanMarkersAux text.data.length text.data

/-- Insertion-ordered counts map update (JavaScript Map set keeps the
position of an existing key and appends a new key). -/
def bumpCount : List (String × Nat) → String → Nat → List (String × Nat)
  | [], name, k => [(name, k)]
  | (n, c) :: rest, name, k =>
    if n = name then (n, c + k) :: rest
    else (n, c) :: bumpCount rest name k

/-- `parseConceptMarkers`: per-identifier occurrence counts in
first-occurrence order. -/
def parseConceptMarkers (text : String) : List (String × Nat) :=
  (scanMarkers text).foldl (fun m n => bumpCount m n 1) []

/-- Result record of `loadConceptsRecursively`; the three JavaScript
collections are insertion-ordered, modelled as lists. -/
structure ConceptState where
  loaded : List (String × String)
  counts : List (String × Nat)
  missing : List String
  deriving Repr, DecidableEq

/-- `loadConceptFile` over a finite concepts directory, modelled as an
association list from identifier to file content; a read failure is folded
into absence, both give null. -/
def lookupFs (fs : List (String × String)) (name : String) : Option String :=
  (fs.find? fun p => p.1 = name).map Prod.snd

/-- The body of `loadConceptsRecursively`: iterate the markers of one text in
order, always accumulate the reference count, skip identifiers already
loaded or missing, record absent files as missing, and recurse into the
content of a newly loaded file (marking it loaded first, which is what makes
cycles safe).  The fuel argument bounds recursion depth; every recursive
entry into a new text follows a strict growth of the loaded map, whose keys
are drawn from the finite concepts directory, so any fuel past the directory
size plus the marker count is enough. -/
def loadGo (fs : List (String × String)) :
    Nat → List (String × Nat) → ConceptState → ConceptState
  | 0, _, st => st
  | _ + 1, [], st => st
  | fuel + 1, (name, cnt) :: rest, st =>
    let st1 : ConceptState := { st with counts := bumpCount st.counts name cnt }
    if st1.loaded.any (fun p => p.1 = name) || st1.missing.contains name then
      loadGo fs fuel rest st1
    else
      match lookupFs fs name with
      | none => loadGo fs fuel rest { st1 with missing := st1.missing ++ [name] }
      | some content =>
        let st2 : ConceptState :=
          { st1 with loaded := st1.loaded ++ [(name, content)] }
        loadGo fs fuel rest (loadGo fs fuel (parseConceptMarkers content) st2)

/-- `loadConceptsRecursively` on a root text. -/
def loadConceptsRecursively (fs : List (String × String)) (fuel : Nat)
    (text : String) (st : ConceptState) : ConceptState :=
  loadGo fs fuel (parseConceptMarkers text) st

/-- The cyclic two-file concepts directory of the recursive-loading claim. -/
def fsAB : List (String × String) := [("a", "`cf:b`"), ("b", "`cf:a`")]

/- ### Concept loader lemmas -/

/-- The full marker text for an identifier. -/
def markerOf (n : String) : List Char :=
  '`' :: 'c' :: 'f' :: ':' :: (n.data ++ ['`'])

/-- Disjointness of the loaded map and the missing set, as a proposition. -/
def DisjP (st : ConceptState) : Prop :=
  ∀ p ∈ st.loaded, p.1 ∉ st.missing

/-- Outcome of one subprocess invocation (exit code and both streams). -/
structure ExecOut where
  code : Int
  stdout : String
  stderr : String

/-- One subprocess invocation: binary name and argument vector. -/
structure ExecCall where
  bin : String
  args : List String
  deriving Repr, DecidableEq

/-- A tool result: the single text block and the error flag (an absent flag
in the source is falsy, modelled as false). -/
structure ToolResult where
  text : String
  isError : Bool
  deriving Repr, DecidableEq

/-- Environment of one workspace tool invocation: home directory, existence
of filesystem paths, whether the process runs inside tmux, the outcomes the
two tmux invocations would produce, the scratch directory, and the random
file name the prompt file would get.  Path joins are modelled as separator
concatenation, which agrees with the node join for the nonempty
separator-free segments the tool builds. -/
structure WsEnv where
  home : String
  pathExists : String → Bool
  inTmux : Bool
  newWindowResult : ExecOut
  sendKeysResult : ExecOut
  tmpBase : String
  uuid : String

/-- `REPOS_BASE`, resolved against the environment home directory. -/
def reposBase (env : WsEnv) : String := env.home ++ "/repos"

/-- `findRepoPath`: the conventional checkout path when it exists. -/
def findRepoPath (env : WsEnv) (owner repo : String) : Option String :=
  let path := reposBase env ++ "/" ++ owner ++ "/" ++ repo
  if env.pathExists path then some path else none

/-- `buildWindowName`. -/
def buildWindowName (owner repo : String) (context : Option String) : String :=
  match context with
  | some c => owner ++ "/" ++ repo ++ " " ++ c
  | none => owner ++ "/" ++ repo

/-- Single-quote escaping applied to the model and thinking arguments. -/
def escapeQuote (s : String) : String :=
  String.mk (s.data.flatMap fun c =>
    if c = '\x27' then ['\x27', '\\', '\x27', '\x27'] else [c])

/-- The environment variable assignments placed before the pi command. -/
def wsEnvVars (orient : Bool) : String :=
  String.intercalate " "
    (["PI_LOAD_ALL_CONCEPTS=1"] ++ if orient then ["PI_WORKSPACE_ORIENT=1"] else [])

/-- The workspace tool execute body, returning the tool result together with
the list of subprocess invocations performed, in order.  Filesystem writes
of the prompt file happen only in the prompt branch, after the first tmux
invocation, and are not part of the subprocess trace. -/
def workspaceExecute (env : WsEnv) (repo model thinking : String)
    (context prompt : Option String) (orient : Bool) :
    ToolResult × List ExecCall :=
  match (splitSlash repo.data).map String.mk with
  | [owner, repoName] =>
    match findRepoPath env owner repoName with
    | none =>
      (⟨"Repo not found locally: " ++ repo ++ "\nExpected at: " ++
        (reposBase env ++ "/" ++ owner ++ "/" ++ repoName) ++
        "\n\nClone it first, or check the path.", true⟩, [])
    | some repoPath =>
      if !env.inTmux then
        (⟨"Not running in tmux. The workspace tool requires tmux to open new windows.",
          true⟩, [])
      else
        let windowName := buildWindowName owner repoName context
        let newWindowCall : ExecCall :=
          ⟨"tmux", ["new-window", "-n", windowName, "-c", repoPath]⟩
        if env.newWindowResult.code ≠ 0 then
          (⟨"Failed to open tmux window: " ++ env.newWindowResult.stderr, true⟩,
            [newWindowCall])
        else
          let modelArgs := "--model '" ++ escapeQuote model ++ "' --thinking '" ++
            escapeQuote thinking ++ "'"
          let okMsg := "Opened workspace: " ++ windowName ++ "\nPath: " ++ repoPath ++
            "\nStarted pi with " ++ model ++ " (thinking: " ++ thinking ++
            ").\n\nSwitch to that tmux window to continue."
          match prompt with
          | some _ =>
            let promptFile := env.tmpBase ++ "/pi-workspace" ++ "/" ++ env.uuid ++ ".md"
            let piCommand := wsEnvVars orient ++ " pi " ++ modelArgs ++ " @" ++ promptFile
            let sendCall : ExecCall :=
              ⟨"tmux", ["send-keys", "-t", windowName, piCommand, "Enter"]⟩
            if env.sendKeysResult.code ≠ 0 then
              (⟨"Opened workspace but failed to start pi: " ++
                env.sendKeysResult.stderr ++ "\nWindow: " ++ windowName ++
                "\nPath: " ++ repoPath, false⟩, [newWindowCall, sendCall])
            else (⟨okMsg, false⟩, [newWindowCall, sendCall])
          | none =>
            let piCommand := wsEnvVars orient ++ " pi " ++ modelArgs
            let sendCall : ExecCall :=
              ⟨"tmux", ["send-keys", "-t", windowName, piCommand, "Enter"]⟩
            if env.sendKeysResult.code ≠ 0 then
              (⟨"Opened workspace but failed to start pi: " ++
                env.sendKeysResult.stderr ++ "\nWindow: " ++ windowName ++
                "\nPath: " ++ repoPath, false⟩, [newWindowCall, sendCall])
            else (⟨okMsg, false⟩, [newWindowCall, sendCall])
  | _ =>
    (⟨"Invalid repo format: \x22" ++ repo ++ "\x22. Expected \x22owner/repo\x22.",
      true⟩, [])

/-- Concrete environment with no checkout present, used by the workspace
claim witness. -/
def wsEnvMissing : WsEnv where
  home := "/home/u"
  pathExists := fun _ => false
  inTmux := true
  newWindowResult := ⟨0, "", ""⟩
  sendKeysResult := ⟨0, "", ""⟩
  tmpBase := "/tmp"
  uuid := "f47ac10b"

/- ## github extension: confirmation reentrancy guard (src/unnamed/part_008) -/

/-- The per-request values the source computes from the command string and
tool context before reaching the confirmation guard: the stored auth error,
the extracted repo flag, the global-command and read-only classifications of
the command, and the repo owner detected from the working directory.  The
guard claim quantifies over all their values, so they enter the model as
data rather than re-derived from the command text. -/
structure GhRequest where
  authError : Option String
  repoFlag : Option String
  isGlobal : Bool
  readOnly : Bool
  repoOwner : Option String

/-- Process-wide state: the module-level guard flag, plus the number of
confirmation modals currently awaiting user input (a ghost counter used to
state the at-most-one property). -/
structure GhSystem where
  confirmationInProgress : Bool
  openModals : Nat
  deriving Repr, DecidableEq

/-- What the synchronous prefix of the github tool execute does before its
first suspension: an early error result, the opening of a confirmation
modal, or a direct fall-through to the subprocess for read-only commands. -/
inductive GhOutcome where
  | errorResult (text : String)
  | modalOpened
  | runCommand
  deriving Repr, DecidableEq

/-- The rejection text of the reentrancy guard. -/
def busyMsg : String :=
  "A GitHub confirmation is already awaiting user feedback. Wait for the user to respond before calling this tool again."

/-- Synchronous prefix of the github tool execute, up to and including the
confirmation guard: auth error first, then the repo-flag and repo-owner
checks for non-global commands, then for non-read-only commands either the
busy rejection (guard set) or setting the guard and opening the modal.
JavaScript is single threaded, so this prefix runs atomically; interleaving
happens only at the modal await, which the transition system below models. -/
def ghRequestStep (req : GhRequest) (s : GhSystem) : GhOutcome × GhSystem :=
  match req.authError with
  | some e => (.errorResult ("github: " ++ e), s)
  | none =>
    if !req.isGlobal && req.repoFlag.isSome then
      (.errorResult "The --repo flag is not supported. Repo-scoped commands must be run from within the repository directory. Use the workspace tool to open a session in the correct repo, or cd there first.", s)
    else if !req.isGlobal && req.repoOwner = none then
      (.errorResult "Not in a GitHub repository. Repo-scoped commands (pr, issue, release, etc.) must be run from within a GitHub repo directory. Use the workspace tool to open a session in the correct repo, or cd there first.", s)
    else if !req.readOnly then
      if s.confirmationInProgress then (.errorResult busyMsg, s)
      else (.modalOpened, ⟨true, s.openModals + 1⟩)
    else (.runCommand, s)

/-- Resolution of an outstanding modal (the user confirms or cancels): the
finally clause clears the guard flag on both paths. -/
def ghResolveStep (s : GhSystem) : GhSystem :=
  ⟨false, s.openModals - 1⟩

/-- States the process can reach: start with the guard clear and no modal,
then interleave request prefixes and modal resolutions. -/
inductive GhReachable : GhSystem → Prop
  | init : GhReachable ⟨false, 0⟩
  | request (req : GhRequest) {s : GhSystem} (h : GhReachable s) :
      GhReachable (ghRequestStep req s).2
  | resolve {s : GhSystem} (h : GhReachable s) (hm : 0 < s.openModals) :
      GhReachable (ghResolveStep s)

/- ## Claim and helper theorems -/

/- ## Theorems about the command gate -/

/-- Claim C1: the code evaluated at the input the claim is about.  The spec
says an API command for the endpoint repos/o/r/pulls/3/comments/9/replies is
allowed with method POST; the code rejects it for every method, because the
allow-list pattern repos/*/pulls/*/comments/*/replies has seven path segments
while the endpoint (owner and repo as separate segments) has eight, and
matchesPattern requires equal segment counts.  The final conjuncts exhibit
the root cause. -/
theorem claimC1_replies_endpoint_code_eval :
    isCommandAllowed "api repos/o/r/pulls/3/comments/9/replies -X POST" =
      ⟨false, some (notInAllowListMsg "api repos/o/r/pulls/3/comments/9/replies")⟩ ∧
    isCommandAllowed "api repos/o/r/pulls/3/comments/9/replies -X GET" =
      ⟨false, some (notInAllowListMsg "api repos/o/r/pulls/3/comments/9/replies")⟩ ∧
    matchesPattern "repos/o/r/pulls/3/comments/9/replies"
      "repos/*/pulls/*/comments/*/replies" = false ∧
    (splitSlash "repos/o/r/pulls/3/comments/9/replies".data).length = 8 ∧
    (splitSlash "repos/*/pulls/*/comments/*/replies".data).length = 7 :=
  ⟨rfl, rfl, rfl, rfl, rfl⟩

/-- Claim C2: the command pr list is allowed; the command pr merge 5 is
rejected, and its reason string names every allowed non-API command pair, in
particular every allowed pr subcommand. -/
theorem claimC2_pr_list_allowed_pr_merge_rejected :
    isCommandAllowed "pr list" = ⟨true, none⟩ ∧
    isCommandAllowed "pr merge 5" = ⟨false, some (notInAllowListMsg "pr merge")⟩ ∧
    ((ALLOWED_COMMANDS.filter fun c => !(isApiRule c)).all
      fun a => strIncludes a (notInAllowListMsg "pr merge")) = true ∧
    (["pr create", "pr comment", "pr view", "pr list", "pr diff", "pr review",
      "pr edit"].all fun a => strIncludes a (notInAllowListMsg "pr merge")) = true :=
  ⟨rfl, rfl, by decide, by decide⟩

/-- Claim C10: any command whose trimmed text has fewer than two
whitespace-separated tokens is rejected with the fixed arity message. -/
theorem claimC10_short_command_rejected (cmd : String)
    (h : (jsSplitWs cmd).length < 2) :
    isCommandAllowed cmd =
      ⟨false, some "Command requires at least: gh_agent <command> <subcommand>"⟩ := by
  rcases hp : jsSplitWs cmd with _ | ⟨a, _ | ⟨b, t⟩⟩
  · simp [isCommandAllowed, hp]
  · simp [isCommandAllowed, hp]
  · rw [hp] at h
    simp at h
    omega

/-- Claim C10 witness: the bare command pr has a single token and is rejected
with the arity message. -/
theorem claimC10_witness :
    (jsSplitWs "pr").length < 2 ∧
    isCommandAllowed "pr" =
      ⟨false, some "Command requires at least: gh_agent <command> <subcommand>"⟩ :=
  ⟨by decide, claimC10_short_command_rejected "pr" (by decide)⟩

/- ### Identity resolver lemmas -/

/-- Greedy capture of a slash-free run stops exactly at the slash. -/
theorem takeWhile_no_slash (owner rest : List Char) (hs : '/' ∉ owner) :
    (owner ++ '/' :: rest).takeWhile (fun c => c != '/') = owner := by
  induction owner with
  | nil => simp [List.takeWhile]
  | cons c t ih =>
    have hc : c ≠ '/' := fun h => hs (h ▸ List.mem_cons_self c t)
    have ht : '/' ∉ t := fun h => hs (List.mem_cons_of_mem c h)
    simp [List.takeWhile_cons, hc, ih ht]

/-- The anchored matcher succeeds exactly on a literal, a nonempty slash-free
owner, and a following slash. -/
theorem ownerAt_exact (lit owner rest : List Char) (hne : owner ≠ [])
    (hs : '/' ∉ owner) :
    ownerAt lit (lit ++ (owner ++ '/' :: rest)) = some owner := by
  unfold ownerAt
  have hpre : lit.isPrefixOf (lit ++ (owner ++ '/' :: rest)) = true := by
    rw [List.isPrefixOf_iff_prefix]
    exact List.prefix_append _ _
  rw [hpre]
  simp only [if_true, List.drop_left]
  rw [takeWhile_no_slash owner rest hs]
  simp [List.drop_left, hne]

/-- A successful anchored match at the first position wins the search. -/
theorem searchOwner_pos0 (lit : List Char) {l : List Char} {o : List Char}
    (hl : l ≠ []) (h : ownerAt lit l = some o) :
    searchOwner lit l = some o := by
  cases l with
  | nil => exact absurd rfl hl
  | cons c rest => simp [searchOwner, h]

/-- If the literal occurs nowhere as a substring, the search fails. -/
theorem searchOwner_eq_none (lit : List Char) {l : List Char}
    (h : containsSub lit l = false) :
    searchOwner lit l = none := by
  induction l with
  | nil => simp [searchOwner]
  | cons c rest ih =>
    unfold containsSub at h
    rw [Bool.or_eq_false_iff] at h
    have hat : ownerAt lit (c :: rest) = none := by
      unfold ownerAt
      rw [h.1]
      simp
    simp [searchOwner, hat, ih h.2]

/-- Substring containment implies element containment. -/
theorem mem_of_containsSub {pat l : List Char} (h : containsSub pat l = true)
    {c : Char} (hc : c ∈ pat) : c ∈ l := by
  induction l with
  | nil =>
    unfold containsSub at h
    rw [List.isEmpty_iff] at h
    subst h
    exact absurd hc (List.not_mem_nil c)
  | cons d rest ih =>
    unfold containsSub at h
    rw [Bool.or_eq_true] at h
    rcases h with h | h
    · rw [List.isPrefixOf_iff_prefix] at h
      exact h.sublist.mem hc
    · exact List.mem_cons_of_mem d (ih h)

/- ### Claim theorems: identity resolver -/

/-- Claim C4: getAccountForRepo returns the agent account john-agent exactly
on the designated owner dyreby, and the personal account dyreby in every
other case, null included. -/
theorem claimC4_account_for_repo (o : Option String) :
    getAccountForRepo o =
      (if o = some "dyreby" then ACCOUNTS.agent else ACCOUNTS.personal) ∧
    (getAccountForRepo o = "john-agent" ↔ o = some "dyreby") ∧
    (getAccountForRepo o = "dyreby" ↔ o ≠ some "dyreby") := by
  refine ⟨rfl, ?_, ?_⟩ <;>
    by_cases h : o = some "dyreby" <;>
      simp [getAccountForRepo, ACCOUNTS, h]

/-- Claim C3 counterexample: a URL whose host is gitlab.com, not github.com,
yet owner extraction returns a non-null owner, because the SSH pattern is
searched for anywhere inside the string rather than anchored at the start. -/
theorem claimC3_counterexample :
    parseRepoOwner "https://gitlab.com/git@github.com:o/r" = some "o" := rfl

/-- Claim C3 as amended: for a string that is exactly an SSH form
git@github.com:owner/rest or an HTTPS form https://github.com/owner/rest
(rest covers both repo and repo.git) with a nonempty slash-free owner (and,
for the HTTPS form, no at-sign in owner or rest, which every GitHub owner
and repo name satisfies), extraction returns exactly the owner; and every
string that does not contain the SSH literal git@github.com: nor the HTTPS
literal https://github.com/ as a substring maps to null. -/
theorem claimC3_amended (owner rest s : String)
    (h1 : owner.data ≠ []) (h2 : '/' ∉ owner.data)
    (h3 : '@' ∉ owner.data) (h4 : '@' ∉ rest.data)
    (h5 : containsSub sshLit s.data = false)
    (h6 : containsSub httpsLit s.data = false) :
    parseRepoOwner ("git@github.com:" ++ owner ++ "/" ++ rest) = some owner ∧
    parseRepoOwner ("https://github.com/" ++ owner ++ "/" ++ rest) = some owner ∧
    parseRepoOwner s = none := by
  refine ⟨?_, ?_, ?_⟩
  · have hdata : ("git@github.com:" ++ owner ++ "/" ++ rest).data =
        sshLit ++ (owner.data ++ '/' :: rest.data) := by
      simp [String.data_append, sshLit]
    unfold parseRepoOwner
    rw [hdata, searchOwner_pos0 sshLit (by simp [sshLit])
      (ownerAt_exact sshLit owner.data rest.data h1 h2)]
  · have hdata : ("https://github.com/" ++ owner ++ "/" ++ rest).data =
        httpsLit ++ (owner.data ++ '/' :: rest.data) := by
      simp [String.data_append, httpsLit]
    have hnossh : containsSub sshLit
        (httpsLit ++ (owner.data ++ '/' :: rest.data)) = false := by
      by_contra hcon
      rw [Bool.not_eq_false] at hcon
      have hat : '@' ∈ httpsLit ++ (owner.data ++ '/' :: rest.data) :=
        mem_of_containsSub hcon (by decide)
      rw [List.mem_append, List.mem_append] at hat
      rcases hat with h | h | h
      · exact absurd h (by decide)
      · exact h3 h
      · rcases List.mem_cons.mp h with h | h
        · exact absurd h.symm (by decide)
        · exact h4 h
    unfold parseRepoOwner
    rw [hdata, searchOwner_eq_none sshLit hnossh,
      searchOwner_pos0 httpsLit (by simp [httpsLit])
        (ownerAt_exact httpsLit owner.data rest.data h1 h2)]
  · unfold parseRepoOwner
    rw [searchOwner_eq_none sshLit h5, searchOwner_eq_none httpsLit h6]

/-- Claim C3 witness: the amended statement applied at the remote URLs the
repository tests use. -/
theorem claimC3_witness :
    parseRepoOwner ("git@github.com:" ++ "octocat" ++ "/" ++ "hello-world.git") =
      some "octocat" ∧
    parseRepoOwner ("https://github.com/" ++ "octocat" ++ "/" ++ "hello-world.git") =
      some "octocat" ∧
    parseRepoOwner "git@gitlab.com:user/repo.git" = none :=
  claimC3_amended "octocat" "hello-world.git" "git@gitlab.com:user/repo.git"
    (by decide) (by decide) (by decide) (by decide) (by decide) (by decide)

theorem containsSub_cons_of (pat : List Char) (c : Char) {l : List Char}
    (h : containsSub pat l = true) : containsSub pat (c :: l) = true := by
  unfold containsSub
  rw [h, Bool.or_true]

theorem containsSub_append_left (pat : List Char) (l1 : List Char)
    {l2 : List Char} (h : containsSub pat l2 = true) :
    containsSub pat (l1 ++ l2) = true := by
  induction l1 with
  | nil => simpa using h
  | cons c t ih => simpa using containsSub_cons_of pat c ih

theorem containsSub_of_isPrefixOf {pat l : List Char}
    (h : pat.isPrefixOf l = true) : containsSub pat l = true := by
  cases l with
  | nil =>
    cases pat with
    | nil => rfl
    | cons p ps => simp [List.isPrefixOf] at h
  | cons c rest =>
    unfold containsSub
    rw [h, Bool.true_or]

/-- A successful anchored marker match decomposes the text as the full
marker followed by the continuation, with a nonempty identifier from the
identifier class. -/
theorem tryMarker_sound {l : List Char} {n : String} {cont : List Char}
    (h : tryMarker l = some (n, cont)) :
    n.data ≠ [] ∧ n.data.all isIdentChar = true ∧ l = markerOf n ++ cont := by
  unfold tryMarker at h
  split at h
  case h_2 => exact absurd h (by simp)
  case h_1 rest2 =>
    set run := rest2.takeWhile isIdentChar with hrdef
    split at h
    case isFalse => exact absurd h (by simp)
    case isTrue hcond =>
      rw [Option.some.injEq, Prod.mk.injEq] at h
      obtain ⟨hn, hcont⟩ := h
      simp only [Bool.and_eq_true, Bool.not_eq_true', decide_eq_true_eq]
        at hcond
      obtain ⟨hrun, hhead⟩ := hcond
      have hpre : run <+: rest2 := hrdef ▸ List.takeWhile_prefix isIdentChar
      obtain ⟨t, ht⟩ := hpre
      have hdrop : rest2.drop run.length = t := by
        rw [← ht, List.drop_left]
      rw [hdrop] at hhead hcont
      have hdata : n.data = run := by rw [← hn]
      cases t with
      | nil => simp at hhead
      | cons thead t2 =>
        have hth : thead = '`' := by simpa using hhead
        subst hth
        have ht2 : t2 = cont := hcont
        subst ht2
        refine ⟨?_, ?_, ?_⟩
        · rw [hdata]
          intro hemp
          rw [hemp] at hrun
          simp at hrun
        · rw [hdata, hrdef]
          exact List.all_eq_true.mpr fun x hx => List.mem_takeWhile_imp hx
        · rw [markerOf, hdata]
          simp only [List.cons_append, List.append_assoc,
            List.singleton_append, List.cons.injEq, true_and]
          exact ht.symm

/-- Every identifier the scanner reports is nonempty, drawn from the
identifier class, and its full marker occurs in the scanned text. -/
theorem scanMarkersAux_sound : ∀ (fuel : Nat) (l : List Char) (n : String),
    n ∈ scanMarkersAux fuel l →
    n.data ≠ [] ∧ n.data.all isIdentChar = true ∧
      containsSub (markerOf n) l = true := by
  intro fuel
  induction fuel with
  | zero => intro l n h; simp [scanMarkersAux] at h
  | succ f ih =>
    intro l n h
    match l with
    | [] => simp [scanMarkersAux] at h
    | c :: rest =>
      rw [scanMarkersAux] at h
      cases htm : tryMarker (c :: rest) with
      | none =>
        rw [htm] at h
        have := ih rest n h
        exact ⟨this.1, this.2.1, containsSub_cons_of _ _ this.2.2⟩
      | some pair =>
        obtain ⟨nm, cont⟩ := pair
        rw [htm] at h
        obtain ⟨hne, hall, heq⟩ := tryMarker_sound htm
        rcases List.mem_cons.mp h with hn | hn
        · subst hn
          refine ⟨hne, hall, ?_⟩
          apply containsSub_of_isPrefixOf
          rw [List.isPrefixOf_iff_prefix]
          exact ⟨cont, heq.symm⟩
        · have := ih cont n hn
          refine ⟨this.1, this.2.1, ?_⟩
          rw [heq]
          exact containsSub_append_left _ _ this.2.2

/-- Membership in an updated counts map comes from the map or the new key. -/
theorem bumpCount_mem {m : List (String × Nat)} {name : String} {k : Nat}
    {p : String × Nat} (h : p ∈ bumpCount m name k) :
    (∃ c, (p.1, c) ∈ m) ∨ p.1 = name := by
  induction m with
  | nil =>
    rw [bumpCount] at h
    rcases List.mem_cons.mp h with h | h
    · exact Or.inr (by rw [h])
    · exact absurd h (List.not_mem_nil _)
  | cons q rest ih =>
    obtain ⟨qn, qc⟩ := q
    rw [bumpCount] at h
    split at h
    · rcases List.mem_cons.mp h with h | h
      · subst h
        exact Or.inl ⟨qc, List.mem_cons_self _ _⟩
      · exact Or.inl ⟨p.2, List.mem_cons_of_mem _ (by simpa using h)⟩
    · rcases List.mem_cons.mp h with h | h
      · subst h
        exact Or.inl ⟨qc, List.mem_cons_self _ _⟩
      · rcases ih h with ⟨c, hc⟩ | h
        · exact Or.inl ⟨c, List.mem_cons_of_mem _ hc⟩
        · exact Or.inr h

/-- Keys of the folded counts map come from the accumulator or the names. -/
theorem foldl_bump_mem : ∀ (names : List String) (acc : List (String × Nat))
    (p : String × Nat), p ∈ names.foldl (fun m n => bumpCount m n 1) acc →
    (∃ c, (p.1, c) ∈ acc) ∨ p.1 ∈ names := by
  intro names
  induction names with
  | nil => intro acc p h; exact Or.inl ⟨p.2, by simpa using h⟩
  | cons n rest ih =>
    intro acc p h
    rcases ih (bumpCount acc n 1) p h with hacc | hrest
    · obtain ⟨c, hc⟩ := hacc
      rcases bumpCount_mem hc with ⟨c0, hc0⟩ | heq
      · exact Or.inl ⟨c0, hc0⟩
      · exact Or.inr (by rw [heq]; exact List.mem_cons_self _ _)
    · exact Or.inr (List.mem_cons_of_mem _ hrest)

/-- Every key of the parsed counts map was reported by the scanner. -/
theorem parseConceptMarkers_sound {text : String} {p : String × Nat}
    (h : p ∈ parseConceptMarkers text) : p.1 ∈ scanMarkers text := by
  rcases foldl_bump_mem (scanMarkers text) [] p h with ⟨c, hc⟩ | h
  · exact absurd hc (List.not_mem_nil _)
  · exact h

/-- The loader never puts an identifier in both the loaded map and the
missing set: a name is added to missing only when it is not yet loaded, and
added to loaded only when it is not yet missing. -/
theorem loadGo_disjoint (fs : List (String × String)) :
    ∀ (fuel : Nat) (ms : List (String × Nat)) (st : ConceptState),
    DisjP st → DisjP (loadGo fs fuel ms st) := by
  intro fuel
  induction fuel with
  | zero => intro ms st h; simpa [loadGo] using h
  | succ f ih =>
    intro ms st h
    match ms with
    | [] => simpa [loadGo] using h
    | (name, cnt) :: rest =>
      simp only [loadGo]
      split
      · exact ih rest _ h
      · next hg =>
        rw [Bool.or_eq_true, not_or] at hg
        obtain ⟨hgl, hgm⟩ := hg
        have hnl : ∀ p ∈ st.loaded, p.1 ≠ name := by
          intro p hp heq
          exact hgl (List.any_eq_true.mpr ⟨p, hp, by simp [heq]⟩)
        have hnm : name ∉ st.missing := fun hm =>
          hgm (List.elem_iff.mpr hm)
        split
        · apply ih
          intro p hp hmem
          rcases List.mem_append.mp hmem with hm | hm
          · exact h p hp hm
          · exact hnl p hp (List.mem_singleton.mp hm)
        · apply ih
          apply ih
          intro p hp hmem
          rcases List.mem_append.mp hp with hpl | hpl
          · exact h p hpl hmem
          · rw [List.mem_singleton.mp hpl] at hmem
            exact hnm hmem

/- ### Claim theorems: concept loader -/

/-- Claim C9: starting from empty accumulators, no identifier ever appears
both as a key of the loaded map and as a member of the missing set, for
every concepts directory, fuel, and root text. -/
theorem claimC9_loaded_missing_disjoint (fs : List (String × String))
    (fuel : Nat) (text : String) :
    ((loadConceptsRecursively fs fuel text ⟨[], [], []⟩).loaded.all fun p =>
      !((loadConceptsRecursively fs fuel text ⟨[], [], []⟩).missing.contains
        p.1)) = true := by
  have h := loadGo_disjoint fs fuel (parseConceptMarkers text) ⟨[], [], []⟩
    (by intro p hp; simp at hp)
  rw [List.all_eq_true]
  intro p hp
  rw [Bool.not_eq_true']
  rw [← Bool.not_eq_true, List.elem_iff]
  exact h p hp

/-- Claim C5: with concepts a and b referencing each other in a cycle, and a
root text referencing only a, loading terminates: every fuel value from
eight upward (well below the unbounded recursion an unguarded cycle would
need) computes the same fixed result, in which both a and b are loaded and
the accumulated counts are the total marker occurrences across all scanned
texts: a twice (root text and b.md), b once (a.md), nothing missing. -/
theorem claimC5_cyclic_loading_terminates (f : Nat) :
    loadConceptsRecursively fsAB (f + 8) "`cf:a`" ⟨[], [], []⟩ =
      ⟨[("a", "`cf:b`"), ("b", "`cf:a`")], [("a", 2), ("b", 1)], []⟩ := rfl

/-- Claim C6 counterexample: the text contains an occurrence of the literal
marker for b (its opening backtick is the closing backtick of the marker for
a), but the parsed counts do not include b, because the scan consumes
matched text and never reuses a closing backtick as the next opening one.
The claim as stated says every occurrence is counted. -/
theorem claimC6_counterexample :
    parseConceptMarkers "`cf:a`cf:b`" = [("a", 1)] ∧
    containsSub (markerOf "b") "`cf:a`cf:b`".data = true := ⟨rfl, rfl⟩

/-- Claim C6 as amended: the example text parses to exactly a twice and b
once; a text with only unbackticked, unclosed, empty, or ill-charactered
delimiter forms parses to nothing; and in general every counted identifier
is nonempty, drawn from the identifier class, and its full backticked marker
occurs in the text — but occurrences are found by a left-to-right scan that
consumes matched text, so overlapping occurrences (sharing a backtick) are
not all counted. -/
theorem claimC6_amended (text : String) (p : String × Nat)
    (h : p ∈ parseConceptMarkers text) :
    parseConceptMarkers "See `cf:a` and `cf:a` and `cf:b`." =
      [("a", 2), ("b", 1)] ∧
    parseConceptMarkers "cf:a and (cf:b) and `cf:` and `cf:c!` end" = [] ∧
    (p.1.data ≠ [] ∧ p.1.data.all isIdentChar = true ∧
      containsSub (markerOf p.1) text.data = true) := by
  refine ⟨rfl, rfl, ?_⟩
  exact scanMarkersAux_sound _ _ _ (parseConceptMarkers_sound h)

/-- Claim C6 witness: the amended statement applied at the example text and
its first entry. -/
theorem claimC6_witness :
    ("a", 2) ∈ parseConceptMarkers "See `cf:a` and `cf:a` and `cf:b`." ∧
    (parseConceptMarkers "See `cf:a` and `cf:a` and `cf:b`." =
      [("a", 2), ("b", 1)] ∧
     parseConceptMarkers "cf:a and (cf:b) and `cf:` and `cf:c!` end" = [] ∧
     (("a", 2).1.data ≠ [] ∧ ("a", 2).1.data.all isIdentChar = true ∧
       containsSub (markerOf ("a", 2).1)
         "See `cf:a` and `cf:a` and `cf:b`.".data = true)) :=
  ⟨by decide, claimC6_amended "See `cf:a` and `cf:a` and `cf:b`." ("a", 2)
    (by decide)⟩

/- ## workspace extension: launch path (src/unnamed/part_004) -/

/-- Structure eta for strings, used to collapse remodelled segments. -/
theorem string_mk_data (s : String) : String.mk s.data = s := rfl

/- ### Workspace lemmas -/

theorem splitSlash_no_slash (l : List Char) (h : '/' ∉ l) :
    splitSlash l = [l] := by
  induction l with
  | nil => rfl
  | cons c rest ih =>
    have hc : c ≠ '/' := fun hq => h (hq ▸ List.mem_cons_self c rest)
    have hrest : '/' ∉ rest := fun hq => h (List.mem_cons_of_mem c hq)
    simp only [splitSlash, ih hrest, hc, if_false, if_neg hc]

theorem splitSlash_append (l1 l2 : List Char) (h : '/' ∉ l1) :
    splitSlash (l1 ++ '/' :: l2) = l1 :: splitSlash l2 := by
  induction l1 with
  | nil => simp [splitSlash]
  | cons c t ih =>
    have hc : c ≠ '/' := fun hq => h (hq ▸ List.mem_cons_self c t)
    have ht : '/' ∉ t := fun hq => h (List.mem_cons_of_mem c hq)
    simp only [List.cons_append, splitSlash, if_neg hc]
    rw [show t.append ('/' :: l2) = t ++ '/' :: l2 from rfl, ih ht]

theorem containsSub_append_self (pat post : List Char) :
    containsSub pat (pat ++ post) = true :=
  containsSub_of_isPrefixOf (by
    rw [List.isPrefixOf_iff_prefix]
    exact List.prefix_append pat post)

/- ### Claim theorems: workspace tool -/

/-- Claim C7: a well-formed owner/repo argument whose conventional local
checkout path does not exist makes the tool return an error result whose
text contains the expected path, with an empty subprocess trace (nothing is
spawned before returning). -/
theorem claimC7_missing_checkout_no_subprocess (env : WsEnv)
    (owner repoName model thinking : String) (context prompt : Option String)
    (orient : Bool)
    (h1 : '/' ∉ owner.data) (h2 : '/' ∉ repoName.data)
    (h3 : env.pathExists (reposBase env ++ "/" ++ owner ++ "/" ++ repoName) =
      false) :
    workspaceExecute env (owner ++ "/" ++ repoName) model thinking context
        prompt orient =
      (⟨"Repo not found locally: " ++ (owner ++ "/" ++ repoName) ++
        "\nExpected at: " ++ (reposBase env ++ "/" ++ owner ++ "/" ++ repoName) ++
        "\n\nClone it first, or check the path.", true⟩, []) ∧
    strIncludes (reposBase env ++ "/" ++ owner ++ "/" ++ repoName)
      (workspaceExecute env (owner ++ "/" ++ repoName) model thinking context
        prompt orient).1.text = true := by
  have hdata : (owner ++ "/" ++ repoName).data =
      owner.data ++ '/' :: repoName.data := by
    simp [String.data_append]
  have hsplit : (splitSlash (owner ++ "/" ++ repoName).data).map String.mk =
      [owner, repoName] := by
    rw [hdata, splitSlash_append _ _ h1, splitSlash_no_slash _ h2]
    simp [string_mk_data]
  have hfind : findRepoPath env owner repoName = none := by
    simp [findRepoPath, h3]
  have hmain : workspaceExecute env (owner ++ "/" ++ repoName) model thinking
      context prompt orient =
      (⟨"Repo not found locally: " ++ (owner ++ "/" ++ repoName) ++
        "\nExpected at: " ++ (reposBase env ++ "/" ++ owner ++ "/" ++ repoName) ++
        "\n\nClone it first, or check the path.", true⟩, []) := by
    unfold workspaceExecute
    rw [hsplit]
    simp only [hfind]
  refine ⟨hmain, ?_⟩
  rw [hmain]
  have hassoc : "Repo not found locally: " ++ (owner ++ "/" ++ repoName) ++
      "\nExpected at: " ++ (reposBase env ++ "/" ++ owner ++ "/" ++ repoName) ++
      "\n\nClone it first, or check the path." =
      ("Repo not found locally: " ++ (owner ++ "/" ++ repoName) ++
        "\nExpected at: ") ++
      ((reposBase env ++ "/" ++ owner ++ "/" ++ repoName) ++
        "\n\nClone it first, or check the path.") := by
    rw [String.append_assoc]
  show strIncludes _ ("Repo not found locally: " ++ (owner ++ "/" ++ repoName) ++
      "\nExpected at: " ++ (reposBase env ++ "/" ++ owner ++ "/" ++ repoName) ++
      "\n\nClone it first, or check the path.") = true
  rw [hassoc]
  unfold strIncludes
  rw [String.data_append, String.data_append]
  exact containsSub_append_left _ _ (containsSub_append_self _ _)

/-- Claim C7 witness: the theorem applied at a concrete environment and a
concrete owner/repo pair. -/
theorem claimC7_witness :
    workspaceExecute wsEnvMissing ("octo" ++ "/" ++ "proj")
        "anthropic/claude-opus-4" "high" none none false =
      (⟨"Repo not found locally: " ++ ("octo" ++ "/" ++ "proj") ++
        "\nExpected at: " ++
        (reposBase wsEnvMissing ++ "/" ++ "octo" ++ "/" ++ "proj") ++
        "\n\nClone it first, or check the path.", true⟩, []) ∧
    strIncludes (reposBase wsEnvMissing ++ "/" ++ "octo" ++ "/" ++ "proj")
      (workspaceExecute wsEnvMissing ("octo" ++ "/" ++ "proj")
        "anthropic/claude-opus-4" "high" none none false).1.text = true :=
  claimC7_missing_checkout_no_subprocess wsEnvMissing "octo" "proj"
    "anthropic/claude-opus-4" "high" none none false
    (by decide) (by decide) rfl

/-- Invariant: at most one modal is ever outstanding, and the guard flag is
set exactly while one is. -/
theorem ghGuard_invariant (s : GhSystem) (h : GhReachable s) :
    s.openModals ≤ 1 ∧ (s.confirmationInProgress = true ↔ s.openModals = 1) := by
  induction h with
  | init => simp
  | @request req s0 h ih =>
    obtain ⟨auth, flag, glob, ro, owner⟩ := req
    cases auth with
    | some e => exact ih
    | none =>
      dsimp [ghRequestStep]
      split
      · exact ih
      · split
        · exact ih
        · split
          · split
            · exact ih
            · next hflag =>
              have hne : s0.openModals ≠ 1 := fun h1 => hflag (ih.2.mpr h1)
              have h0 : s0.openModals = 0 := by omega
              simp [h0]
          · exact ih
  | @resolve s0 h hm ih =>
    have h1 : s0.openModals = 1 := Nat.le_antisymm ih.1 hm
    simp [ghResolveStep, h1]

/-- Claim C8: in every reachable state with a confirmation modal
outstanding, the guard flag is set, a second non-read-only request (one that
passes the earlier auth and repo checks) is rejected immediately with the
wait message — state unchanged, no modal opened, not queued — and resolving
the outstanding modal clears the guard flag. -/
theorem claimC8_confirmation_guard (s : GhSystem) (req : GhRequest)
    (h : GhReachable s) (hmodal : s.openModals = 1)
    (hauth : req.authError = none) (hro : req.readOnly = false)
    (hpass : req.isGlobal = true ∨ (req.repoFlag = none ∧ req.repoOwner ≠ none)) :
    s.confirmationInProgress = true ∧
    ghRequestStep req s = (.errorResult busyMsg, s) ∧
    (ghResolveStep s).confirmationInProgress = false ∧
    (ghResolveStep s).openModals = 0 := by
  have hinv := ghGuard_invariant s h
  have hflag : s.confirmationInProgress = true := hinv.2.mpr hmodal
  obtain ⟨auth, flag, glob, ro, owner⟩ := req
  cases hauth
  cases hro
  refine ⟨hflag, ?_, by simp [ghResolveStep], by simp [ghResolveStep, hmodal]⟩
  rcases hpass with hg | ⟨hf, ho⟩
  · cases hg
    simp [ghRequestStep, hflag]
  · cases hf
    dsimp only at ho
    simp [ghRequestStep, hflag, ho]

/-- Claim C8 witness: the state reached by one non-read-only request from
the initial state has its modal outstanding; a second identical request is
rejected with the wait message, and resolution clears the flag. -/
theorem claimC8_witness :
    (⟨true, 1⟩ : GhSystem).confirmationInProgress = true ∧
    ghRequestStep ⟨none, none, true, false, none⟩ ⟨true, 1⟩ =
      (.errorResult busyMsg, ⟨true, 1⟩) ∧
    (ghResolveStep ⟨true, 1⟩).confirmationInProgress = false ∧
    (ghResolveStep ⟨true, 1⟩).openModals = 0 :=
  claimC8_confirmation_guard ⟨true, 1⟩ ⟨none, none, true, false, none⟩
    (GhReachable.request ⟨none, none, true, false, none⟩ GhReachable.init)
    rfl rfl rfl (Or.inl rfl)
